/-
  Verification of the Financial-Analysis backtesting script
  (src/trading_strat.py) against its natural-language specification.

  The script configures three trading rules (RSI threshold-reversion,
  Bollinger band-breakout, moving-average crossover) and a trade analyzer
  on top of the backtrader engine.  The strategy decision functions
  (`RSIStrategy.next`, `BollingerBandsStrategy.next`,
  `MovingAverageCrossoverStrategy.next`) and the `TradeAnalyzer`
  (`notify_trade`, `get_analysis`) are embedded directly from the source.
  The engine itself (broker fills, warm-up gating, simulation loop,
  performance analytics) is not part of the repository's source; those
  parts are modelled from the specification and are marked as such.

  Numeric values are embedded as exact rationals (ℚ); Python's `int(x)`
  truncation toward zero is `qtrunc`.
-/
import Mathlib

namespace FinancialAnalysis

/-! ### Data model -/

/-- One OHLCV sample (spec §3 Bar): timestamp, open, high, low, close,
    volume.  Only `close` drives decisions and fills in this script. -/
structure Bar where
  timestamp : ℕ
  openPrice : ℚ
  high : ℚ
  low : ℚ
  close : ℚ
  volume : ℚ
  deriving Repr, DecidableEq

/-- Long-only position (spec §3): `size = 0` means flat; `price` is the
    average entry price. -/
structure Position where
  size : ℕ
  price : ℚ
  deriving Repr, DecidableEq

/-- Portfolio cash plus the (single) position (spec §3). -/
structure Portfolio where
  cash : ℚ
  position : Position
  deriving Repr, DecidableEq

/-- A trade record (spec §3 Trade): created on a filled Buy, closed on a
    CloseAll fill.  `isclosed` mirrors backtrader's `trade.isclosed`,
    `pnl` mirrors `trade.pnl`. -/
structure Trade where
  entryPrice : ℚ
  exitPrice : ℚ
  size : ℕ
  pnl : ℚ
  isclosed : Bool
  deriving Repr, DecidableEq

/-- A trading decision (spec §4.2); `Buy` carries the share count the
    strategy computed, since in the source the strategy itself sizes the
    order (`self.buy(size=shares)`). -/
inductive Decision where
  | Hold : Decision
  | Buy : ℕ → Decision
  | CloseAll : Decision
  deriving Repr, DecidableEq

/-- Python `int(x)` on a rational: truncation toward zero.  This is the
    conversion applied in `shares = int(cash / self.data.close[0])`. -/
def qtrunc (x : ℚ) : ℤ := if 0 ≤ x then ⌊x⌋ else ⌈x⌉

/-! ### Strategy decision functions (embedded from src/trading_strat.py)

    Each `next` runs with the indicator value already available; the
    engine does not invoke `next` before the indicator's warm-up
    (modelled below by `barDecision`). -/

/-- `RSIStrategy.next` (src lines 11–18): if flat and rsi < oversold,
    buy `int(cash / close)` shares; elif (in position and)
    rsi > overbought, close; else do nothing. -/
def rsiNext (oversold overbought rsi cash close : ℚ) (posSize : ℕ) :
    Decision :=
  if posSize = 0 then
    if rsi < oversold then Decision.Buy (qtrunc (cash / close)).toNat
    else Decision.Hold
  else if overbought < rsi then Decision.CloseAll
  else Decision.Hold

/-- `BollingerBandsStrategy.next` (src lines 26–33): if flat and
    close < bottom band, buy `int(cash / close)` shares; elif
    close > top band, close; else do nothing. -/
def bbNext (close bot top cash : ℚ) (posSize : ℕ) : Decision :=
  if posSize = 0 then
    if close < bot then Decision.Buy (qtrunc (cash / close)).toNat
    else Decision.Hold
  else if top < close then Decision.CloseAll
  else Decision.Hold

/-- `MovingAverageCrossoverStrategy.next` (src lines 43–50): if flat and
    crossover signal > 0, buy `int(cash / close)` shares; elif
    crossover < 0, close; else do nothing. -/
def maNext (cross cash close : ℚ) (posSize : ℕ) : Decision :=
  if posSize = 0 then
    if 0 < cross then Decision.Buy (qtrunc (cash / close)).toNat
    else Decision.Hold
  else if cross < 0 then Decision.CloseAll
  else Decision.Hold

/-! ### TradeAnalyzer (embedded from src/trading_strat.py lines 52–68) -/

/-- The analyzer's mutable counters, initialised to 0 in `__init__`. -/
structure TAState where
  trades : ℕ
  wins : ℕ
  deriving Repr, DecidableEq

/-- `TradeAnalyzer.notify_trade` (src lines 57–61): on a closed trade,
    increment `trades`, and increment `wins` when `trade.pnl > 0`;
    not-yet-closed trade notifications are ignored. -/
def notifyTrade (s : TAState) (t : Trade) : TAState :=
  if t.isclosed then
    { trades := s.trades + 1
      wins := if 0 < t.pnl then s.wins + 1 else s.wins }
  else s

/-- The `win_rate` field of `TradeAnalyzer.get_analysis` (src lines
    63–68): `wins / trades` when `trades > 0`, else `0`. -/
def winRate (s : TAState) : ℚ :=
  if 0 < s.trades then (s.wins : ℚ) / (s.trades : ℚ) else 0

/-- `TradeAnalyzer.get_analysis` (src lines 63–68): the returned
    dictionary `(total_trades, wins, win_rate)`. -/
def getAnalysis (s : TAState) : ℕ × ℕ × ℚ :=
  (s.trades, s.wins, winRate s)

/-! ### Broker / Execution Simulator

    Modelled from the spec: the broker lives in the backtrader engine,
    not in src/.  Spec §4.3: Buy fills `size` shares at the current
    bar's close, rejecting a zero-size order, an order while already in
    position, or an order cash cannot cover; CloseAll requires an open
    position, credits `size × close` and closes the open trade with
    `pnl = (exitPrice − entryPrice) × size`; rejections are no-ops. -/

/-- Outcome of submitting one order to the broker (spec §4.3 / §7):
    `noOrder` when the decision was Hold, `rejected` for the no-op
    rejected-order events, `filled` otherwise. -/
inductive FillResult where
  | noOrder : FillResult
  | rejected : FillResult
  | filled : FillResult
  deriving Repr, DecidableEq

/-- The broker's answer for one bar: the updated portfolio, the fill
    result, and the trade-notification events this fill produced (a
    newly opened trade and/or a newly closed trade). -/
structure ExecOut where
  portfolio : Portfolio
  result : FillResult
  opened : Option Trade
  closed : Option Trade
  deriving Repr, DecidableEq

/-- Modelled from the spec (§4.3, §8, §9): `execute(decision, close,
    portfolio)`.  Buy while in position, Buy of zero shares, Buy the
    cash cannot cover, and CloseAll while flat are all rejected no-ops;
    fills happen at the given close price. -/
def execute (d : Decision) (close : ℚ) (p : Portfolio) : ExecOut :=
  match d with
  | Decision.Hold => ⟨p, FillResult.noOrder, none, none⟩
  | Decision.Buy s =>
      if s = 0 ∨ 0 < p.position.size ∨ p.cash < (s : ℚ) * close then
        ⟨p, FillResult.rejected, none, none⟩
      else
        ⟨{ cash := p.cash - (s : ℚ) * close
           position := { size := s, price := close } },
         FillResult.filled,
         some { entryPrice := close, exitPrice := 0, size := s, pnl := 0,
                isclosed := false },
         none⟩
  | Decision.CloseAll =>
      if p.position.size = 0 then ⟨p, FillResult.rejected, none, none⟩
      else
        ⟨{ cash := p.cash + (p.position.size : ℚ) * close
           position := { size := 0, price := 0 } },
         FillResult.filled,
         none,
         some { entryPrice := p.position.price, exitPrice := close,
                size := p.position.size,
                pnl := (close - p.position.price) * (p.position.size : ℚ),
                isclosed := true }⟩

/-! ### Simulation Driver

    Modelled from the spec (§2, §4.5): the event loop lives in the
    backtrader engine, not in src/.  The driver is parametric in the
    strategy, given as an indicator-signal function `sig` over the bar
    history so far (returning `none` while not ready) and a decision
    function `decide` of the signal value, the current close and the
    portfolio.  Each of the three source strategies instantiates
    `decide`. -/

/-- The engine state carried across bars: portfolio, analyzer counters
    and the equity curve (spec §3 Portfolio / §4.5). -/
structure RunState where
  portfolio : Portfolio
  analyzer : TAState
  equityCurve : List ℚ
  deriving Repr, DecidableEq

/-- Modelled from the spec (§4.1, §4.2): the decision taken at bar `b`
    with history `past`.  The signal type `σ` is the strategy's
    indicator snapshot (ℚ for RSI and crossover, a pair of bands for
    Bollinger).  While the indicator is not ready the engine does not
    call the strategy's `next` at all (backtrader's minimum-period
    gating), so the decision is Hold. -/
def barDecision {σ : Type} (sig : List Bar → Option σ)
    (decide : σ → ℚ → Portfolio → Decision)
    (past : List Bar) (b : Bar) (p : Portfolio) : Decision :=
  match sig (past ++ [b]) with
  | none => Decision.Hold
  | some v => decide v b.close p

/-- Modelled from the spec (§2, §4.3, §4.5): one bar of the event loop —
    decide, execute at this bar's close, deliver the trade notifications
    to the analyzer, then append `cash + size × close` to the equity
    curve. -/
def stepBar {σ : Type} (sig : List Bar → Option σ)
    (decide : σ → ℚ → Portfolio → Decision)
    (past : List Bar) (b : Bar) (st : RunState) : RunState :=
  let d := barDecision sig decide past b st.portfolio
  let e := execute d b.close st.portfolio
  let a1 := match e.opened with
    | none => st.analyzer
    | some t => notifyTrade st.analyzer t
  let a2 := match e.closed with
    | none => a1
    | some t => notifyTrade a1 t
  { portfolio := e.portfolio
    analyzer := a2
    equityCurve := st.equityCurve ++
      [e.portfolio.cash + (e.portfolio.position.size : ℚ) * b.close] }

/-- Modelled from the spec (§4.5): iterate the bars strictly in order,
    threading the processed history and the engine state. -/
def simLoop {σ : Type} (sig : List Bar → Option σ)
    (decide : σ → ℚ → Portfolio → Decision) :
    List Bar → List Bar → RunState → RunState
  | _, [], st => st
  | past, b :: rest, st =>
      simLoop sig decide (past ++ [b]) rest (stepBar sig decide past b st)

/-- Modelled from the spec (§4.5): the fresh engine state a run starts
    from — cash = startingCash, flat position, zeroed analyzer, equity
    curve seeded with startingCash. -/
def initState (startingCash : ℚ) : RunState :=
  { portfolio := { cash := startingCash, position := { size := 0, price := 0 } }
    analyzer := { trades := 0, wins := 0 }
    equityCurve := [startingCash] }

/-! ### Performance analytics

    Modelled from the spec (§4.4): the Sharpe / return / drawdown
    analyzers live in the backtrader engine, not in src/.  Square roots
    and fractional powers are irrational in general, so the two
    primitives `sqrt` (for the Sharpe annualization) and `pow` (for the
    annualized return) are taken as parameters; every claim below holds
    for all choices of these primitives. -/

/-- Per-bar return series (spec §4.4): r_t = equity[t] / equity[t−1] − 1. -/
def returnsSeries : List ℚ → List ℚ
  | [] => []
  | [_] => []
  | a :: b :: rest => (b / a - 1) :: returnsSeries (b :: rest)

/-- Arithmetic mean of a list of rationals (0 on the empty list). -/
def listMean (r : List ℚ) : ℚ := r.sum / (r.length : ℚ)

/-- Population variance of a list of rationals (0 on the empty list). -/
def listVariance (r : List ℚ) : ℚ :=
  (r.map (fun x => (x - listMean r) ^ 2)).sum / (r.length : ℚ)

/-- Modelled from the spec (§4.4, §7): sharpeRatio = mean(r)/stdDev(r),
    annualized by √252 for daily bars; the sentinel `none` ("not
    available") when fewer than 2 returns exist or stdDev(r) = 0
    (equivalently, variance 0). -/
def sharpeOf (sqrt : ℚ → ℚ) (r : List ℚ) : Option ℚ :=
  if r.length < 2 ∨ listVariance r = 0 then none
  else some (sqrt 252 * listMean r / sqrt (listVariance r))

/-- Modelled from the spec (§4.4): compounded return over the run's
    duration normalized to one year, as a percentage; `none` when
    undefined (no bars or zero starting value). -/
def annualReturn (pow : ℚ → ℚ → ℚ) (start final : ℚ) (nBars : ℕ) :
    Option ℚ :=
  if nBars = 0 ∨ start = 0 then none
  else some (100 * (pow (final / start) ((252 : ℚ) / (nBars : ℚ)) - 1))

/-- One step of the drawdown scan: update the running peak and the
    maximum drawdown (as a fraction of the peak) with one equity value. -/
def ddStep (acc : ℚ × ℚ) (e : ℚ) : ℚ × ℚ :=
  let peak := max acc.1 e
  let dd := if peak = 0 then 0 else (peak - e) / peak
  (peak, max acc.2 dd)

/-- Modelled from the spec (§4.4): maxDrawdown = max over t of
    (peak up to t − equity_t) / peak, as a percentage; 0 when equity is
    monotonically non-decreasing. -/
def maxDrawdown (eq : List ℚ) : ℚ :=
  100 * (eq.foldl ddStep (0, 0)).2

/-- The final report (spec §3 AnalysisReport). -/
structure AnalysisReport where
  startingValue : ℚ
  finalValue : ℚ
  sharpe : Option ℚ
  annual : Option ℚ
  drawdown : ℚ
  totalTrades : ℕ
  wins : ℕ
  rate : ℚ
  deriving Repr, DecidableEq

/-- Modelled from the spec (§4.4): `finalize(state, startingCash)` —
    the report computed once at the end of the run from the equity curve
    and the analyzer counters. -/
def finalize (sqrt : ℚ → ℚ) (pw : ℚ → ℚ → ℚ) (startingCash : ℚ)
    (st : RunState) :
    AnalysisReport :=
  { startingValue := startingCash
    finalValue := st.equityCurve.getLastD startingCash
    sharpe := sharpeOf sqrt (returnsSeries st.equityCurve)
    annual := annualReturn pw startingCash
      (st.equityCurve.getLastD startingCash) (st.equityCurve.length - 1)
    drawdown := maxDrawdown st.equityCurve
    totalTrades := st.analyzer.trades
    wins := st.analyzer.wins
    rate := winRate st.analyzer }

/-- Modelled from the spec (§4.5, §6): `run(barSeries, strategy,
    startingCash)` — a fresh engine state per run, the bar loop, then
    one finalize.  The engine is a function of (bars, strategy
    configuration, starting cash) and of the two irrational primitives
    only. -/
def run {σ : Type} (sqrt : ℚ → ℚ) (pw : ℚ → ℚ → ℚ)
    (sig : List Bar → Option σ)
    (decide : σ → ℚ → Portfolio → Decision)
    (bars : List Bar) (startingCash : ℚ) : AnalysisReport :=
  finalize sqrt pw startingCash
    (simLoop sig decide [] bars (initState startingCash))

/-! ### The three source strategies as decision functions

    These wire the embedded `next` functions (src lines 11–18, 26–33,
    43–50) into the driver's `decide` slot: the signal value is the
    strategy's indicator output for the current bar, the close is the
    current bar's close, and the portfolio supplies cash and position
    size exactly as `self.broker.getcash()` / `self.position` do. -/

/-- `RSIStrategy` as a decision function of (rsi value, close, portfolio). -/
def rsiDecide (oversold overbought : ℚ) : ℚ → ℚ → Portfolio → Decision :=
  fun rsi close p => rsiNext oversold overbought rsi p.cash close p.position.size

/-- `BollingerBandsStrategy` as a decision function; the signal is the
    per-bar pair (bottom band, top band). -/
def bbDecide : ℚ × ℚ → ℚ → Portfolio → Decision :=
  fun bands close p => bbNext close bands.1 bands.2 p.cash p.position.size

/-- `MovingAverageCrossoverStrategy` as a decision function of
    (crossover signal, close, portfolio). -/
def maDecide : ℚ → ℚ → Portfolio → Decision :=
  fun cross close p => maNext cross p.cash close p.position.size

/-- The share-sizing expression `shares = int(cash / close)` common to
    the Buy branches of all three strategies (src lines 13–15, 28–30,
    45–47), with Python's division semantics made explicit: a zero
    close raises ZeroDivisionError (`none`, there is no zero-guard in
    the source); otherwise `int(...)` truncates toward zero. -/
def buyShares (cash close : ℚ) : Option ℤ :=
  if close = 0 then none else some (qtrunc (cash / close))

/-! ### Helper lemmas on the analyzer fold -/

/-- Folding `notify_trade` counts exactly the closed trades. -/
lemma ta_foldl_trades (ledger : List Trade) (s : TAState) :
    (List.foldl notifyTrade s ledger).trades =
      s.trades + ledger.countP (fun t => t.isclosed) := by
  induction ledger generalizing s with
  | nil => simp
  | cons t l ih =>
      simp only [List.foldl_cons, ih, List.countP_cons]
      by_cases hc : t.isclosed
      · simp [notifyTrade, hc]
        omega
      · simp [notifyTrade, hc]

/-- Folding `notify_trade` counts exactly the closed trades with
    strictly positive profit. -/
lemma ta_foldl_wins (ledger : List Trade) (s : TAState) :
    (List.foldl notifyTrade s ledger).wins =
      s.wins + ledger.countP (fun t => t.isclosed && decide (0 < t.pnl)) := by
  induction ledger generalizing s with
  | nil => simp
  | cons t l ih =>
      simp only [List.foldl_cons, ih, List.countP_cons]
      by_cases hc : t.isclosed
      · by_cases hp : (0 : ℚ) < t.pnl
        · simp [notifyTrade, hc, hp]
          omega
        · simp [notifyTrade, hc, hp]
      · simp [notifyTrade, hc]

/-- The winning trades are among the closed trades. -/
lemma ta_foldl_wins_le_trades (ledger : List Trade) :
    (List.foldl notifyTrade ⟨0, 0⟩ ledger).wins ≤
      (List.foldl notifyTrade ⟨0, 0⟩ ledger).trades := by
  rw [ta_foldl_trades, ta_foldl_wins]
  simp only [Nat.zero_add]
  exact List.countP_mono_left (fun t _ h => by
    simp only [Bool.and_eq_true] at h
    exact h.1)

/-! ### C1 — win-rate computation -/

/-- C1.  For every trade ledger, the analyzer's `win_rate` equals
    `wins / total_trades` when `total_trades > 0`, equals 0 when
    `total_trades = 0`, and always lies in [0, 1]. -/
theorem winRate_spec (ledger : List Trade) :
    (0 < (List.foldl notifyTrade ⟨0, 0⟩ ledger).trades →
      winRate (List.foldl notifyTrade ⟨0, 0⟩ ledger) =
        ((List.foldl notifyTrade ⟨0, 0⟩ ledger).wins : ℚ) /
          ((List.foldl notifyTrade ⟨0, 0⟩ ledger).trades : ℚ)) ∧
    ((List.foldl notifyTrade ⟨0, 0⟩ ledger).trades = 0 →
      winRate (List.foldl notifyTrade ⟨0, 0⟩ ledger) = 0) ∧
    0 ≤ winRate (List.foldl notifyTrade ⟨0, 0⟩ ledger) ∧
    winRate (List.foldl notifyTrade ⟨0, 0⟩ ledger) ≤ 1 := by
  set s := List.foldl notifyTrade (⟨0, 0⟩ : TAState) ledger with hs
  have hwt : s.wins ≤ s.trades := ta_foldl_wins_le_trades ledger
  refine ⟨fun h => by simp [winRate, h], fun h => by simp [winRate, h], ?_, ?_⟩
  · unfold winRate
    split
    · positivity
    · exact le_refl 0
  · unfold winRate
    split
    · rename_i h
      rw [div_le_one (by exact_mod_cast h)]
      exact_mod_cast hwt
    · exact zero_le_one

/-- C1 witness: a ledger of one winning closed trade, one losing closed
    trade and one still-open trade has two trades, one win, and win rate
    1/2. -/
theorem winRate_spec_witness :
    winRate (List.foldl notifyTrade ⟨0, 0⟩
      [⟨100, 110, 10, 100, true⟩, ⟨100, 90, 10, -100, true⟩,
       ⟨100, 0, 10, 0, false⟩]) = (1 : ℚ) / 2 := by
  have h := (winRate_spec
    [⟨100, 110, 10, 100, true⟩, ⟨100, 90, 10, -100, true⟩,
     ⟨100, 0, 10, 0, false⟩]).1 (by decide)
  rw [h]
  norm_num [List.foldl, notifyTrade]

/-! ### C6 — trade counting -/

/-- C6.  For every sequence of trade notifications, `total_trades` is
    the number of closed trades and `wins` is the number of closed
    trades with `pnl > 0`; open trades contribute to neither count. -/
theorem trade_counting (ledger : List Trade) :
    (List.foldl notifyTrade ⟨0, 0⟩ ledger).trades =
      ledger.countP (fun t => t.isclosed) ∧
    (List.foldl notifyTrade ⟨0, 0⟩ ledger).wins =
      ledger.countP (fun t => t.isclosed && decide (0 < t.pnl)) := by
  constructor
  · rw [ta_foldl_trades]; simp
  · rw [ta_foldl_wins]; simp

/-! ### C2 — buy fill arithmetic -/

/-- For nonnegative cash over a positive price, Python's `int(...)`
    truncation agrees with the floor. -/
lemma qtrunc_nonneg_floor (C P : ℚ) (hC : 0 ≤ C) (hP : 0 < P) :
    qtrunc (C / P) = ⌊C / P⌋ := by
  unfold qtrunc
  rw [if_pos (div_nonneg hC hP.le)]

/-- The floored share count never costs more than the available cash. -/
lemma floor_shares_cost_le (C P : ℚ) (hP : 0 < P) :
    (⌊C / P⌋ : ℚ) * P ≤ C := by
  have h := Int.floor_le (C / P)
  calc (⌊C / P⌋ : ℚ) * P ≤ (C / P) * P :=
        mul_le_mul_of_nonneg_right h hP.le
    _ = C := div_mul_cancel₀ C hP.ne'

/-- C2.  From a flat portfolio with cash `C ≥ 0` at close `P > 0`, the
    strategy's share count equals `⌊C / P⌋`; if it is nonzero the Buy
    fills, leaving `cash_after = C − S×P` with `cash_after ≥ 0` and the
    position holding `S` shares. -/
theorem buy_fill_arithmetic (C P : ℚ) (hC : 0 ≤ C) (hP : 0 < P) :
    (((qtrunc (C / P)).toNat : ℤ) = ⌊C / P⌋) ∧
    ((qtrunc (C / P)).toNat ≠ 0 →
      (execute (Decision.Buy (qtrunc (C / P)).toNat) P
          ⟨C, ⟨0, 0⟩⟩).result = FillResult.filled ∧
      (execute (Decision.Buy (qtrunc (C / P)).toNat) P
          ⟨C, ⟨0, 0⟩⟩).portfolio.cash =
        C - ((qtrunc (C / P)).toNat : ℚ) * P ∧
      0 ≤ (execute (Decision.Buy (qtrunc (C / P)).toNat) P
          ⟨C, ⟨0, 0⟩⟩).portfolio.cash ∧
      (execute (Decision.Buy (qtrunc (C / P)).toNat) P
          ⟨C, ⟨0, 0⟩⟩).portfolio.position.size =
        (qtrunc (C / P)).toNat) := by
  have hfl : qtrunc (C / P) = ⌊C / P⌋ := qtrunc_nonneg_floor C P hC hP
  have hnn : 0 ≤ ⌊C / P⌋ := Int.floor_nonneg.mpr (div_nonneg hC hP.le)
  have hcast : (((qtrunc (C / P)).toNat : ℤ)) = ⌊C / P⌋ := by
    rw [hfl]; exact Int.toNat_of_nonneg hnn
  refine ⟨hcast, fun hS => ?_⟩
  have hcost : ((qtrunc (C / P)).toNat : ℚ) * P ≤ C := by
    have : (((qtrunc (C / P)).toNat : ℤ) : ℚ) = ((⌊C / P⌋ : ℤ) : ℚ) := by
      exact_mod_cast hcast
    push_cast at this
    rw [this]
    exact floor_shares_cost_le C P hP
  have hguard : ¬((qtrunc (C / P)).toNat = 0 ∨
      0 < (Portfolio.mk C ⟨0, 0⟩).position.size ∨
      (Portfolio.mk C ⟨0, 0⟩).cash < ((qtrunc (C / P)).toNat : ℚ) * P) := by
    push_neg
    exact ⟨hS, by simp, hcost⟩
  simp only [execute, if_neg hguard]
  refine ⟨trivial, trivial, ?_, trivial⟩
  simpa using sub_nonneg.mpr hcost

/-- C2 witness: cash 100000 at close 100 sizes the order at 1000
    shares; the fill leaves cash 0 and a position of 1000 shares. -/
theorem buy_fill_arithmetic_witness :
    (((qtrunc ((100000 : ℚ) / 100)).toNat : ℤ) = ⌊(100000 : ℚ) / 100⌋) ∧
    (execute (Decision.Buy (qtrunc ((100000 : ℚ) / 100)).toNat) 100
        ⟨100000, ⟨0, 0⟩⟩).portfolio.cash =
      100000 - ((qtrunc ((100000 : ℚ) / 100)).toNat : ℚ) * 100 := by
  have h := buy_fill_arithmetic 100000 100 (by norm_num) (by norm_num)
  exact ⟨h.1, (h.2 (by norm_num [qtrunc])).2.1⟩

/-! ### C4 — position state machine -/

/-- C4.  In all three strategies a Buy decision implies a flat position
    and a CloseAll decision implies an open position; in the broker a
    Buy while in position and a CloseAll while flat are rejected no-ops
    leaving the portfolio unchanged, so at most one trade is open at a
    time. -/
theorem position_state_machine :
    (∀ os ob rsi cash close : ℚ, ∀ pos s,
        rsiNext os ob rsi cash close pos = Decision.Buy s → pos = 0) ∧
    (∀ os ob rsi cash close : ℚ, ∀ pos,
        rsiNext os ob rsi cash close pos = Decision.CloseAll → 0 < pos) ∧
    (∀ close bot top cash : ℚ, ∀ pos s,
        bbNext close bot top cash pos = Decision.Buy s → pos = 0) ∧
    (∀ close bot top cash : ℚ, ∀ pos,
        bbNext close bot top cash pos = Decision.CloseAll → 0 < pos) ∧
    (∀ cross cash close : ℚ, ∀ pos s,
        maNext cross cash close pos = Decision.Buy s → pos = 0) ∧
    (∀ cross cash close : ℚ, ∀ pos,
        maNext cross cash close pos = Decision.CloseAll → 0 < pos) ∧
    (∀ p : Portfolio, ∀ close : ℚ, ∀ s, 0 < p.position.size →
        execute (Decision.Buy s) close p =
          ⟨p, FillResult.rejected, none, none⟩) ∧
    (∀ p : Portfolio, ∀ close : ℚ, p.position.size = 0 →
        execute Decision.CloseAll close p =
          ⟨p, FillResult.rejected, none, none⟩) := by
  refine ⟨?_, ?_, ?_, ?_, ?_, ?_, ?_, ?_⟩
  · intro os ob rsi cash close pos s h
    unfold rsiNext at h
    by_cases hp : pos = 0
    · exact hp
    · simp only [if_neg hp] at h
      split at h <;> simp_all
  · intro os ob rsi cash close pos h
    unfold rsiNext at h
    by_cases hp : pos = 0
    · simp only [if_pos hp] at h
      split at h <;> simp_all
    · omega
  · intro close bot top cash pos s h
    unfold bbNext at h
    by_cases hp : pos = 0
    · exact hp
    · simp only [if_neg hp] at h
      split at h <;> simp_all
  · intro close bot top cash pos h
    unfold bbNext at h
    by_cases hp : pos = 0
    · simp only [if_pos hp] at h
      split at h <;> simp_all
    · omega
  · intro cross cash close pos s h
    unfold maNext at h
    by_cases hp : pos = 0
    · exact hp
    · simp only [if_neg hp] at h
      split at h <;> simp_all
  · intro cross cash close pos h
    unfold maNext at h
    by_cases hp : pos = 0
    · simp only [if_pos hp] at h
      split at h <;> simp_all
    · omega
  · intro p close s h
    simp only [execute]
    rw [if_pos (Or.inr (Or.inl h))]
  · intro p close h
    simp only [execute]
    rw [if_pos h]

/-- C4 witness: with one share held, the RSI rule never buys (it closes
    at rsi = 80 > 70), and the broker rejects a Buy, leaving the
    portfolio unchanged. -/
theorem position_state_machine_witness :
    (0 : ℕ) < 1 ∧
    execute (Decision.Buy 5) 100 ⟨1000, ⟨1, 90⟩⟩ =
      ⟨⟨1000, ⟨1, 90⟩⟩, FillResult.rejected, none, none⟩ := by
  exact ⟨by decide,
    (position_state_machine).2.2.2.2.2.2.1 ⟨1000, ⟨1, 90⟩⟩ 100 5 (by decide)⟩

/-! ### C5 — warm-up safety -/

/-- C5.  While the strategy's indicator is not ready, the engine's
    per-bar decision is Hold, for every decision rule and thus for
    every configured threshold. -/
theorem warmup_hold {σ : Type} (sig : List Bar → Option σ)
    (decide : σ → ℚ → Portfolio → Decision) (past : List Bar) (b : Bar)
    (p : Portfolio) (h : sig (past ++ [b]) = none) :
    barDecision sig decide past b p = Decision.Hold := by
  unfold barDecision
  rw [h]

/-- C5 witness: a never-ready signal yields Hold under the RSI rule
    with extreme thresholds that would otherwise force a Buy. -/
theorem warmup_hold_witness :
    barDecision (fun _ => (none : Option ℚ)) (rsiDecide 1000 2000) []
      ⟨0, 0, 0, 0, 100, 0⟩ ⟨100000, ⟨0, 0⟩⟩ = Decision.Hold :=
  warmup_hold (fun _ => (none : Option ℚ)) (rsiDecide 1000 2000) []
    ⟨0, 0, 0, 0, 100, 0⟩ ⟨100000, ⟨0, 0⟩⟩ rfl

/-! ### C3 — same-bar fill -/

/-- A trade opened by the broker carries the fill price it was given as
    its entry price. -/
lemma execute_opened_price (d : Decision) (c : ℚ) (p : Portfolio)
    (t : Trade) (h : (execute d c p).opened = some t) : t.entryPrice = c := by
  cases d with
  | Hold => simp [execute] at h
  | Buy s =>
      by_cases hg : s = 0 ∨ 0 < p.position.size ∨ p.cash < (s : ℚ) * c
      · simp [execute, hg] at h
      · simp only [execute, if_neg hg, Option.some.injEq] at h
        rw [← h]
  | CloseAll =>
      by_cases hz : p.position.size = 0
      · simp [execute, hz] at h
      · simp [execute, hz] at h

/-- A trade closed by the broker carries the fill price it was given as
    its exit price. -/
lemma execute_closed_price (d : Decision) (c : ℚ) (p : Portfolio)
    (t : Trade) (h : (execute d c p).closed = some t) : t.exitPrice = c := by
  cases d with
  | Hold => simp [execute] at h
  | Buy s =>
      by_cases hg : s = 0 ∨ 0 < p.position.size ∨ p.cash < (s : ℚ) * c
      · simp [execute, hg] at h
      · simp [execute, hg] at h
  | CloseAll =>
      by_cases hz : p.position.size = 0
      · simp [execute, hz] at h
      · simp only [execute, if_neg hz, Option.some.injEq] at h
        rw [← h]

/-- C3.  The bar step fills at the processed bar's own close: the
    step's portfolio is the broker output at `b.close`, every opened
    trade enters at `b.close`, every closed trade exits at `b.close`,
    the decision function itself receives `b.close`, and the RSI rule's
    share sizing divides by that same close. -/
theorem same_bar_fill {σ : Type} (sig : List Bar → Option σ)
    (dec : σ → ℚ → Portfolio → Decision) (past : List Bar) (b : Bar)
    (st : RunState) :
    (stepBar sig dec past b st).portfolio =
      (execute (barDecision sig dec past b st.portfolio) b.close
        st.portfolio).portfolio ∧
    (∀ t, (execute (barDecision sig dec past b st.portfolio) b.close
        st.portfolio).opened = some t → t.entryPrice = b.close) ∧
    (∀ t, (execute (barDecision sig dec past b st.portfolio) b.close
        st.portfolio).closed = some t → t.exitPrice = b.close) ∧
    (∀ v, sig (past ++ [b]) = some v →
      barDecision sig dec past b st.portfolio = dec v b.close st.portfolio) ∧
    (∀ os ob rsi : ℚ, ∀ s,
      rsiNext os ob rsi st.portfolio.cash b.close st.portfolio.position.size =
        Decision.Buy s → s = (qtrunc (st.portfolio.cash / b.close)).toNat) := by
  refine ⟨rfl,
    fun t h => execute_opened_price _ _ _ t h,
    fun t h => execute_closed_price _ _ _ t h,
    fun v hv => ?_, fun os ob rsi s h => ?_⟩
  · unfold barDecision
    rw [hv]
  · unfold rsiNext at h
    by_cases hp : st.portfolio.position.size = 0
    · simp only [if_pos hp] at h
      split at h
      · exact (Decision.Buy.injEq _ _).mp h.symm
      · exact absurd h (by simp)
    · simp only [if_neg hp] at h
      split at h <;> simp_all

/-- C3 witness: with an always-ready rsi of 10 against thresholds
    (30, 70) on a bar closing at 100, the fresh-portfolio step opens a
    trade whose entry price is that bar's close. -/
theorem same_bar_fill_witness :
    ((execute (barDecision (fun _ => some (10 : ℚ)) (rsiDecide 30 70) []
        ⟨0, 0, 0, 0, 100, 0⟩ (initState 100000).portfolio)
        (100 : ℚ) (initState 100000).portfolio).opened =
      some ⟨100, 0, 1000, 0, false⟩) ∧
    (⟨100, 0, 1000, 0, false⟩ : Trade).entryPrice = (100 : ℚ) := by
  have hop : (execute (barDecision (fun _ => some (10 : ℚ)) (rsiDecide 30 70)
      [] ⟨0, 0, 0, 0, 100, 0⟩ (initState 100000).portfolio)
      (100 : ℚ) (initState 100000).portfolio).opened =
      some ⟨100, 0, 1000, 0, false⟩ := by
    norm_num [barDecision, rsiDecide, rsiNext, initState, execute, qtrunc]
    have ht : Int.toNat 1000 = 1000 := rfl
    rw [ht]
    norm_num
  refine ⟨hop, ?_⟩
  have h := (same_bar_fill (fun _ => some (10 : ℚ)) (rsiDecide 30 70) []
    ⟨0, 0, 0, 0, 100, 0⟩ (initState 100000)).2.1 ⟨100, 0, 1000, 0, false⟩
  exact h hop

/-! ### C7 — zero-size Buy rejection -/

/-- C7.  When the RSI rule fires a Buy but the truncated share count is
    0, the order is a rejected no-op: the broker rejects it, the step's
    portfolio is unchanged, and the loop continues with the next bar. -/
theorem zero_size_buy_rejected (os ob rsi : ℚ) (sig : List Bar → Option ℚ)
    (past rest : List Bar) (b : Bar) (st : RunState)
    (hsig : sig (past ++ [b]) = some rsi)
    (hflat : st.portfolio.position.size = 0)
    (hbuy : rsi < os)
    (hzero : qtrunc (st.portfolio.cash / b.close) = 0) :
    barDecision sig (rsiDecide os ob) past b st.portfolio =
      Decision.Buy 0 ∧
    (execute (Decision.Buy 0) b.close st.portfolio).result =
      FillResult.rejected ∧
    (execute (Decision.Buy 0) b.close st.portfolio).portfolio =
      st.portfolio ∧
    (stepBar sig (rsiDecide os ob) past b st).portfolio = st.portfolio ∧
    simLoop sig (rsiDecide os ob) past (b :: rest) st =
      simLoop sig (rsiDecide os ob) (past ++ [b]) rest
        (stepBar sig (rsiDecide os ob) past b st) := by
  have hdec : barDecision sig (rsiDecide os ob) past b st.portfolio =
      Decision.Buy 0 := by
    unfold barDecision
    rw [hsig]
    simp [rsiDecide, rsiNext, hflat, hbuy, hzero]
  refine ⟨hdec, by simp [execute], by simp [execute], ?_, rfl⟩
  show (execute (barDecision sig (rsiDecide os ob) past b st.portfolio)
    b.close st.portfolio).portfolio = st.portfolio
  rw [hdec]
  simp [execute]

/-- C7 witness: with cash 50 and close 100, the RSI Buy sizes to 0
    shares and is rejected leaving the portfolio unchanged. -/
theorem zero_size_buy_rejected_witness :
    (stepBar (fun _ => some (10 : ℚ)) (rsiDecide 30 70) []
      ⟨0, 0, 0, 0, 100, 0⟩ (initState 50)).portfolio =
      (initState 50).portfolio := by
  have h := zero_size_buy_rejected 30 70 10 (fun _ => some (10 : ℚ))
    [] [] ⟨0, 0, 0, 0, 100, 0⟩ (initState 50) rfl rfl (by norm_num)
    (by norm_num [initState, qtrunc])
  exact h.2.2.2.1

/-! ### C8 — Sharpe-ratio sentinel -/

/-- C8.  When the run's return series has fewer than 2 entries or zero
    variance, the report's Sharpe field is the sentinel `none`, and the
    run still is the full report built by `finalize`. -/
theorem sharpe_sentinel {σ : Type} (sq : ℚ → ℚ) (pw : ℚ → ℚ → ℚ)
    (sig : List Bar → Option σ) (dec : σ → ℚ → Portfolio → Decision)
    (bars : List Bar) (cash : ℚ)
    (h : (returnsSeries
        (simLoop sig dec [] bars (initState cash)).equityCurve).length < 2 ∨
      listVariance (returnsSeries
        (simLoop sig dec [] bars (initState cash)).equityCurve) = 0) :
    (run sq pw sig dec bars cash).sharpe = none ∧
    run sq pw sig dec bars cash =
      finalize sq pw cash (simLoop sig dec [] bars (initState cash)) := by
  refine ⟨?_, rfl⟩
  show sharpeOf sq (returnsSeries
    (simLoop sig dec [] bars (initState cash)).equityCurve) = none
  unfold sharpeOf
  rw [if_pos h]

/-- C8 witness: a run over an empty bar series has a single-point
    equity curve, no returns, and a `none` Sharpe field. -/
theorem sharpe_sentinel_witness :
    (run id (fun a _ => a) (fun _ => (none : Option ℚ)) (rsiDecide 30 70)
      [] 100000).sharpe = none := by
  exact (sharpe_sentinel id (fun a _ => a) (fun _ => (none : Option ℚ))
    (rsiDecide 30 70) [] 100000 (Or.inl (by simp [simLoop, initState,
      returnsSeries]))).1

/-! ### C9 — determinism and run independence -/

/-- C9.  Two runs over identical bar series, the same strategy and the
    same starting cash produce identical reports; each run is built
    from a fresh initial state. -/
theorem run_deterministic {σ : Type} (sq : ℚ → ℚ) (pw : ℚ → ℚ → ℚ)
    (sig : List Bar → Option σ) (dec : σ → ℚ → Portfolio → Decision)
    (bars₁ bars₂ : List Bar) (cash₁ cash₂ : ℚ)
    (hb : bars₁ = bars₂) (hc : cash₁ = cash₂) :
    run sq pw sig dec bars₁ cash₁ = run sq pw sig dec bars₂ cash₂ ∧
    run sq pw sig dec bars₁ cash₁ =
      finalize sq pw cash₁ (simLoop sig dec [] bars₁ (initState cash₁)) := by
  subst hb
  subst hc
  exact ⟨rfl, rfl⟩

/-- C9 witness: two runs on the same one-bar series with the same cash
    agree. -/
theorem run_deterministic_witness :
    run id (fun a _ => a) (fun _ => (none : Option ℚ)) (rsiDecide 30 70)
      [⟨0, 0, 0, 0, 100, 0⟩] 100000 =
    run id (fun a _ => a) (fun _ => (none : Option ℚ)) (rsiDecide 30 70)
      [⟨0, 0, 0, 0, 100, 0⟩] 100000 :=
  (run_deterministic id (fun a _ => a) (fun _ => (none : Option ℚ))
    (rsiDecide 30 70) [⟨0, 0, 0, 0, 100, 0⟩] [⟨0, 0, 0, 0, 100, 0⟩]
    100000 100000 rfl rfl).1

/-! ### C10 — unguarded share-sizing division -/

/-- C10.  The shared share-sizing expression is defined at every bar of
    a series whose closes are all strictly positive — there the
    truncation is total and yields `int(cash / close)` — while at a
    zero close the unguarded division is undefined. -/
theorem share_sizing_division (bars : List Bar) (cash : ℚ)
    (hpos : ∀ b ∈ bars, 0 < b.close) :
    (∀ b ∈ bars, buyShares cash b.close = some (qtrunc (cash / b.close))) ∧
    buyShares cash 0 = none := by
  refine ⟨fun b hb => ?_, by simp [buyShares]⟩
  have hne : b.close ≠ 0 := (hpos b hb).ne'
  simp [buyShares, hne]

/-- C10 witness: at close 100 the sizing is defined and truncates
    `100000 / 100` to 1000. -/
theorem share_sizing_division_witness :
    buyShares 100000 (100 : ℚ) = some (qtrunc ((100000 : ℚ) / 100)) := by
  have h := (share_sizing_division [⟨0, 0, 0, 0, 100, 0⟩] 100000
    (by intro b hb; simp at hb; rw [hb]; norm_num)).1
    ⟨0, 0, 0, 0, 100, 0⟩ (by simp)
  simpa using h

end FinancialAnalysis
